import Mathlib

/-!
Verification of the PDF post-processing core (PostProcess class):
metadata injection, outline (TOC) lowering, cover-page insertion and
serialization/export.  Shallow embedding: each method of the source is
translated into a Lean function; the pdf-lib document context is modelled
as an assignment list of (object number, dictionary) pairs where the most
recent assignment wins, and external collaborators (file system, URL
parsing, image decoding, uuid) are passed in as explicit function
arguments.
-/

namespace Vivliostyle

/-- Models the TOCItem shape from the broker module (not under src);
per the data model a TOC node is an id (destination anchor), a title,
and an ordered sequence of child nodes. -/
inductive TOCItem where
| mk (id : String) (title : String) (children : List TOCItem)

def TOCItem.id : TOCItem → String
| .mk i _ _ => i

def TOCItem.title : TOCItem → String
| .mk _ t _ => t

def TOCItem.children : TOCItem → List TOCItem
| .mk _ _ c => c

/-- PDFTocItem extends TOCItem with the allocated object reference, the
parent reference, and decorated children.  Object references are object
numbers (Nat) handed out by the document context counter. -/
inductive PDFTocItem where
| mk (id : String) (title : String) (ref : Nat) (parentRef : Nat)
    (children : List PDFTocItem)

def PDFTocItem.id : PDFTocItem → String
| .mk i _ _ _ _ => i

def PDFTocItem.title : PDFTocItem → String
| .mk _ t _ _ _ => t

def PDFTocItem.ref : PDFTocItem → Nat
| .mk _ _ r _ _ => r

def PDFTocItem.parentRef : PDFTocItem → Nat
| .mk _ _ _ p _ => p

def PDFTocItem.children : PDFTocItem → List PDFTocItem
| .mk _ _ _ _ c => c

/-- An outline dictionary: the keys that PostProcess.toc ever sets.
A field holding none models the key being absent from the dictionary. -/
structure OutlineDict where
  Title : Option String := none
  Dest : Option String := none
  Parent : Option Nat := none
  Prev : Option Nat := none
  Next : Option Nat := none
  First : Option Nat := none
  Last : Option Nat := none
  Count : Option Nat := none
deriving DecidableEq

/-- The slice of PDFDocument state that PostProcess.toc touches: the
context's next object number, the assignment list of indirect objects
(most recent assignment first, as context.assign overwrites), and the
catalog's Outlines entry. -/
structure PDFDocState where
  nextRefCtr : Nat
  objects : List (Nat × OutlineDict)
  catalogOutlines : Option Nat
deriving DecidableEq

/-- Models context.lookup: the most recent assignment to an object number wins. -/
def lookupObj (objects : List (Nat × OutlineDict)) (r : Nat) :
    Option OutlineDict :=
  (objects.find? (fun e => e.1 == r)).map (fun e => e.2)

/-- addRefs from PostProcess.toc: walks the TOC items in order, allocating
one fresh reference per node (context.nextRef) before recursively
decorating its children, and records the parent reference.  The Nat
argument and result thread the context's object-number counter. -/
def addRefs : List TOCItem → Nat → Nat → List PDFTocItem × Nat
| [], _, ctr => ([], ctr)
| .mk i t c :: rest, parentRef, ctr =>
  let r := ctr
  let res₁ := addRefs c r (ctr + 1)
  let res₂ := addRefs rest parentRef res₁.2
  (.mk i t r parentRef res₁.1 :: res₂.1, res₂.2)

mutual

/-- countAll from PostProcess.toc: items.reduce with initial accumulator
items.length, adding countAll(item.children) for each item. -/
def countAll (items : List PDFTocItem) : Nat :=
  countAllGo items items.length

/-- The reduce loop of countAll, threading the accumulator. -/
def countAllGo : List PDFTocItem → Nat → Nat
| [], sum => sum
| .mk _ _ _ _ c :: rest, sum => countAllGo rest (sum + countAll c)

end

/-- Builds the dictionary that addObjectsToPDF assembles for one item:
Title, Dest and Parent always; Prev/Next only when the corresponding
sibling exists; First/Last/Count only when the item has children. -/
def mkOutlineDict (item : PDFTocItem) (prev next : Option Nat) :
    OutlineDict where
  Title := some item.title
  Dest := some item.id
  Parent := some item.parentRef
  Prev := prev
  Next := next
  First := item.children.head?.map PDFTocItem.ref
  Last := item.children.getLast?.map PDFTocItem.ref
  Count := match item.children with
    | [] => none
    | c => some (countAll c)

/-- addObjectsToPDF from PostProcess.toc: for each item in order, build
its dictionary (using the previous and next siblings for Prev/Next),
assign it into the context, then recurse into the children.  The
Option Nat argument carries the previous sibling's reference, which the
source reads as items at index i-1; each level starts with none. -/
def addObjectsToPDF :
    Option Nat → List PDFTocItem → List (Nat × OutlineDict) →
    List (Nat × OutlineDict)
| _, [], ctx => ctx
| prev, .mk i t r p c :: rest, ctx =>
  let item : PDFTocItem := .mk i t r p c
  let child := mkOutlineDict item prev (rest.head?.map PDFTocItem.ref)
  let ctx₁ := (item.ref, child) :: ctx
  let ctx₂ := addObjectsToPDF none c ctx₁
  addObjectsToPDF (some item.ref) rest ctx₂

/-- Models PostProcess.toc: nothing happens on an empty item list; otherwise a
reference for the outline root is allocated first, the tree is decorated
by addRefs, every node dictionary is assigned by addObjectsToPDF, the
root dictionary (First/Last/Count only) is assigned, and the catalog's
Outlines entry is pointed at the root. -/
def toc (doc : PDFDocState) (items : List TOCItem) : PDFDocState :=
  if items.isEmpty then doc
  else
    let outlineRef := doc.nextRefCtr
    let res := addRefs items outlineRef (doc.nextRefCtr + 1)
    let objs := addObjectsToPDF none res.1 doc.objects
    let outline : OutlineDict :=
      { First := res.1.head?.map PDFTocItem.ref
        Last := res.1.getLast?.map PDFTocItem.ref
        Count := some (countAll res.1) }
    { nextRefCtr := res.2
      objects := (outlineRef, outline) :: objs
      catalogOutlines := some outlineRef }

/-- Specification-side node count of a TOC forest: one per node,
recursively. -/
def tocSize : List TOCItem → Nat
| [] => 0
| .mk _ _ c :: rest => 1 + tocSize c + tocSize rest

/-- Specification-side node count of a decorated forest. -/
def forestCount : List PDFTocItem → Nat
| [] => 0
| .mk _ _ _ _ c :: rest => 1 + forestCount c + forestCount rest

/-- Sum of the descendant counts of the roots of a forest (the quantity
countAll adds on top of the forest's length). -/
def childrenCountSum : List PDFTocItem → Nat
| [] => 0
| .mk _ _ _ _ c :: rest => forestCount c + childrenCountSum rest

/-- Preorder listing of the references of a decorated forest, in the
order addRefs allocates them. -/
def refsList : List PDFTocItem → List Nat
| [] => []
| .mk _ _ r _ c :: rest => r :: (refsList c ++ refsList rest)

/-- The assignments addObjectsToPDF performs, in execution order. -/
def emitObjects : Option Nat → List PDFTocItem → List (Nat × OutlineDict)
| _, [] => []
| prev, .mk i t r p c :: rest =>
  let item : PDFTocItem := .mk i t r p c
  (item.ref, mkOutlineDict item prev (rest.head?.map PDFTocItem.ref))
    :: (emitObjects none c ++ emitObjects (some item.ref) rest)

/-- Membership of a node anywhere in a forest (as a root or nested below
one). -/
inductive InForest : PDFTocItem → List PDFTocItem → Prop where
| here (p : PDFTocItem) (l : List PDFTocItem) : InForest p (p :: l)
| there {p : PDFTocItem} {q : PDFTocItem} {l : List PDFTocItem} :
    InForest p l → InForest p (q :: l)
| under {p : PDFTocItem} {q : PDFTocItem} {l : List PDFTocItem} :
    InForest p q.children → InForest p (q :: l)

/-- The sibling sequences of a forest: the top-level sequence itself, and
the children sequence of every node in the forest. -/
inductive SibList : List PDFTocItem → List PDFTocItem → Prop where
| top (f : List PDFTocItem) : SibList f f
| sub {f : List PDFTocItem} {p : PDFTocItem} :
    InForest p f → SibList p.children f

/-- The previous-sibling reference seen when the element at the given
index of a sibling sequence is processed: the incoming accumulator at
index 0, the preceding element's reference afterwards. -/
def prevAt (prev : Option Nat) (l : List PDFTocItem) : Nat → Option Nat
| 0 => prev
| i + 1 => (l.get? i).map PDFTocItem.ref

theorem PDFTocItem.ref_mk (i t : String) (r p : Nat) (c : List PDFTocItem) :
    (PDFTocItem.mk i t r p c).ref = r := rfl

theorem PDFTocItem.children_mk (i t : String) (r p : Nat)
    (c : List PDFTocItem) : (PDFTocItem.mk i t r p c).children = c := rfl

theorem forestCount_eq (l : List PDFTocItem) :
    forestCount l = l.length + childrenCountSum l := by
  induction l with
  | nil => simp [forestCount, childrenCountSum]
  | cons hd tl ih =>
    cases hd
    simp [forestCount, childrenCountSum, ih]
    omega

theorem countAllGo_spec : ∀ (l : List PDFTocItem) (s : Nat),
    countAllGo l s = s + childrenCountSum l
| [], s => by simp [countAllGo, childrenCountSum]
| .mk i t r p c :: rest, s => by
  have hc : countAll c = forestCount c := by
    rw [countAll, countAllGo_spec c c.length, forestCount_eq]
  have hr := countAllGo_spec rest (s + countAll c)
  simp only [countAllGo, childrenCountSum]
  rw [hr, hc, forestCount_eq]
  omega

theorem countAll_spec (l : List PDFTocItem) : countAll l = forestCount l := by
  rw [countAll, countAllGo_spec, forestCount_eq]

theorem addRefs_spec : ∀ (items : List TOCItem) (pr ctr : Nat),
    (addRefs items pr ctr).2 = ctr + tocSize items ∧
    refsList (addRefs items pr ctr).1 = List.range' ctr (tocSize items) ∧
    forestCount (addRefs items pr ctr).1 = tocSize items
| [], pr, ctr => by simp [addRefs, tocSize, refsList, forestCount]
| .mk i t c :: rest, pr, ctr => by
  obtain ⟨h1, h2, h3⟩ := addRefs_spec c ctr (ctr + 1)
  obtain ⟨h4, h5, h6⟩ := addRefs_spec rest pr (addRefs c ctr (ctr + 1)).2
  simp only [addRefs, tocSize, refsList, forestCount]
  refine ⟨?_, ?_, ?_⟩
  · rw [h4, h1]; omega
  · rw [h2, h5, h1]
    have harith : 1 + tocSize c + tocSize rest =
        tocSize c + tocSize rest + 1 := by omega
    rw [harith, List.range'_succ, List.range'_append_1,
      Nat.add_comm (tocSize rest) (tocSize c)]
  · rw [h3, h6]

theorem addObjectsToPDF_eq :
    ∀ (prev : Option Nat) (f : List PDFTocItem)
      (ctx : List (Nat × OutlineDict)),
    addObjectsToPDF prev f ctx = (emitObjects prev f).reverse ++ ctx
| prev, [], ctx => by simp [addObjectsToPDF, emitObjects]
| prev, .mk i t r p c :: rest, ctx => by
  have h1 := addObjectsToPDF_eq none c
    ((r, mkOutlineDict (.mk i t r p c) prev
      (rest.head?.map PDFTocItem.ref)) :: ctx)
  have h2 := addObjectsToPDF_eq (some r) rest
    (addObjectsToPDF none c
      ((r, mkOutlineDict (.mk i t r p c) prev
        (rest.head?.map PDFTocItem.ref)) :: ctx))
  rw [h1] at h2
  simp only [addObjectsToPDF, PDFTocItem.ref_mk, h1, h2, emitObjects,
    List.reverse_cons, List.reverse_append, List.append_assoc,
    List.cons_append, List.nil_append]

theorem emitObjects_keys : ∀ (prev : Option Nat) (f : List PDFTocItem),
    (emitObjects prev f).map Prod.fst = refsList f
| prev, [] => by simp [emitObjects, refsList]
| prev, .mk i t r p c :: rest => by
  have h1 := emitObjects_keys none c
  have h2 := emitObjects_keys (some r) rest
  simp only [emitObjects, refsList, PDFTocItem.ref_mk, List.map_cons,
    List.map_append, h1, h2]

theorem prevAt_cons (x : PDFTocItem) (rest : List PDFTocItem) (i : Nat) :
    prevAt (some x.ref) rest i = ((x :: rest).get? i).map PDFTocItem.ref := by
  cases i <;> simp [prevAt]

theorem mem_emit_own :
    ∀ (prev : Option Nat) (l : List PDFTocItem) (i : Nat)
      (hi : i < l.length),
    ((l.get ⟨i, hi⟩).ref,
      mkOutlineDict (l.get ⟨i, hi⟩) (prevAt prev l i)
        ((l.get? (i + 1)).map PDFTocItem.ref)) ∈ emitObjects prev l
| prev, .mk a b r p c :: rest, 0, hi => by
  cases rest <;> simp [emitObjects, prevAt]
| prev, .mk a b r p c :: rest, i + 1, hi => by
  have hlen : i < rest.length := by
    simpa [Nat.succ_lt_succ_iff] using hi
  have ih := mem_emit_own (some (PDFTocItem.mk a b r p c).ref) rest i hlen
  rw [prevAt_cons] at ih
  simp only [List.get_cons_succ, List.get?_cons_succ, prevAt, emitObjects]
  exact List.mem_cons_of_mem _ (List.mem_append_right _ ih)

theorem mem_emit_sub {p : PDFTocItem} {f : List PDFTocItem}
    (h : InForest p f) :
    ∀ (prev : Option Nat) (i : Nat) (hi : i < p.children.length),
    ((p.children.get ⟨i, hi⟩).ref,
      mkOutlineDict (p.children.get ⟨i, hi⟩) (prevAt none p.children i)
        ((p.children.get? (i + 1)).map PDFTocItem.ref))
      ∈ emitObjects prev f := by
  induction h with
  | here l =>
    intro prev i hi
    have hm := mem_emit_own none p.children i hi
    cases p with
    | mk a b r pr c =>
      simp only [PDFTocItem.children_mk] at hm ⊢
      simp only [emitObjects, PDFTocItem.ref_mk]
      exact List.mem_cons_of_mem _ (List.mem_append_left _ hm)
  | there hq ih =>
    rename_i q l
    intro prev i hi
    have hm := ih (some q.ref) i hi
    cases q with
    | mk a b r pr c =>
      simp only [emitObjects, PDFTocItem.ref_mk]
      exact List.mem_cons_of_mem _ (List.mem_append_right _ hm)
  | under hq ih =>
    rename_i q l
    intro prev i hi
    have hm := ih none i hi
    cases q with
    | mk a b r pr c =>
      simp only [emitObjects, PDFTocItem.ref_mk, PDFTocItem.children_mk]
        at hm ⊢
      exact List.mem_cons_of_mem _ (List.mem_append_left _ hm)

theorem find?_of_keys_nodup :
    ∀ (L : List (Nat × OutlineDict)) (r : Nat) (d : OutlineDict),
    (L.map Prod.fst).Nodup → (r, d) ∈ L →
    L.find? (fun e => e.1 == r) = some (r, d)
| [], r, d, _, hm => absurd hm (List.not_mem_nil _)
| (a, b) :: tl, r, d, hnd, hm => by
  rcases List.mem_cons.mp hm with heq | htl
  · cases heq
    simp [List.find?_cons]
  · have hnd' := (List.nodup_cons.mp hnd)
    by_cases hra : a = r
    · exfalso
      have hmm : r ∈ tl.map Prod.fst := List.mem_map_of_mem Prod.fst htl
      rw [← hra] at hmm
      exact hnd'.1 hmm
    · have : (a == r) = false := by simp [hra]
      simp only [List.find?_cons, this]
      exact find?_of_keys_nodup tl r d hnd'.2 htl

theorem find?_append_some :
    ∀ (L₁ L₂ : List (Nat × OutlineDict)) (q : Nat × OutlineDict → Bool)
      (a : Nat × OutlineDict),
    L₁.find? q = some a → (L₁ ++ L₂).find? q = some a
| [], _, _, _, h => by simp [List.find?] at h
| x :: tl, L₂, q, a, h => by
  by_cases hx : q x
  · simp only [List.find?_cons_of_pos _ hx] at h
    simpa [List.find?_cons_of_pos _ hx] using h
  · simp only [List.find?_cons_of_neg _ hx] at h
    simpa [List.find?_cons_of_neg _ hx] using find?_append_some tl L₂ q a h

/-- Main lookup lemma: after PostProcess.toc on a non-empty item list,
the dictionary stored at the reference of the element at index i of any
sibling sequence of the decorated forest is exactly the dictionary
addObjectsToPDF built for it: Prev from its predecessor (none at index
0) and Next from its successor (none past the end). -/
theorem toc_lookup (doc : PDFDocState) (items : List TOCItem)
    (h : items ≠ []) (l : List PDFTocItem)
    (hsib : SibList l
      (addRefs items doc.nextRefCtr (doc.nextRefCtr + 1)).1)
    (i : Nat) (hi : i < l.length) :
    lookupObj (toc doc items).objects (l.get ⟨i, hi⟩).ref =
      some (mkOutlineDict (l.get ⟨i, hi⟩) (prevAt none l i)
        ((l.get? (i + 1)).map PDFTocItem.ref)) := by
  have hne : items.isEmpty = false := by
    cases items with
    | nil => exact absurd rfl h
    | cons a b => rfl
  obtain ⟨hsnd, hrefs, hfc⟩ :=
    addRefs_spec items doc.nextRefCtr (doc.nextRefCtr + 1)
  have hmem : ((l.get ⟨i, hi⟩).ref,
      mkOutlineDict (l.get ⟨i, hi⟩) (prevAt none l i)
        ((l.get? (i + 1)).map PDFTocItem.ref)) ∈
      emitObjects none
        (addRefs items doc.nextRefCtr (doc.nextRefCtr + 1)).1 := by
    cases hsib with
    | top => exact mem_emit_own none _ i hi
    | sub hp => exact mem_emit_sub hp none i hi
  have hkey : (l.get ⟨i, hi⟩).ref ∈
      refsList (addRefs items doc.nextRefCtr (doc.nextRefCtr + 1)).1 := by
    have hmap := List.mem_map_of_mem Prod.fst hmem
    rwa [emitObjects_keys] at hmap
  have hgt : doc.nextRefCtr < (l.get ⟨i, hi⟩).ref := by
    rw [hrefs] at hkey
    have := List.mem_range'_1.mp hkey
    omega
  have hnodup : ((emitObjects none
      (addRefs items doc.nextRefCtr (doc.nextRefCtr + 1)).1).reverse.map
        Prod.fst).Nodup := by
    rw [List.map_reverse, emitObjects_keys, hrefs]
    exact List.nodup_reverse.mpr (List.nodup_range' _ _)
  simp only [toc, hne, Bool.false_eq_true, if_false, addObjectsToPDF_eq]
  have hbeq : ((doc.nextRefCtr : Nat) == (l.get ⟨i, hi⟩).ref) = false :=
    beq_eq_false_iff_ne.mpr (Nat.ne_of_lt hgt)
  rw [lookupObj, List.find?_cons_of_neg _
    (by simp only [hbeq]; exact Bool.false_ne_true)]
  rw [find?_append_some _ _ _ _
    (find?_of_keys_nodup _ _ _ hnodup (List.mem_reverse.mpr hmem))]
  rfl

/-- Every node of a forest is either a root of it or a child of some
node of it. -/
theorem inForest_cases {p : PDFTocItem} {f : List PDFTocItem}
    (h : InForest p f) :
    p ∈ f ∨ ∃ q, InForest q f ∧ p ∈ q.children := by
  induction h with
  | here l => exact Or.inl (List.mem_cons_self p l)
  | there hq ih =>
    rename_i q l
    rcases ih with hm | ⟨q', hq', hm'⟩
    · exact Or.inl (List.mem_cons_of_mem q hm)
    · exact Or.inr ⟨q', InForest.there hq', hm'⟩
  | under hq ih =>
    rename_i q l
    rcases ih with hm | ⟨q', hq', hm'⟩
    · exact Or.inr ⟨q, InForest.here q l, hm⟩
    · exact Or.inr ⟨q', InForest.under hq', hm'⟩

/-- Every node of a forest sits at some index of some sibling sequence
of that forest. -/
theorem inForest_sib {p : PDFTocItem} {f : List PDFTocItem}
    (h : InForest p f) :
    ∃ l, SibList l f ∧ ∃ n : Fin l.length, l.get n = p := by
  rcases inForest_cases h with hm | ⟨q, hq, hm⟩
  · exact ⟨f, SibList.top f, List.mem_iff_get.mp hm⟩
  · exact ⟨q.children, SibList.sub hq, List.mem_iff_get.mp hm⟩

theorem mkOutlineDict_Prev (item : PDFTocItem) (prev next : Option Nat) :
    (mkOutlineDict item prev next).Prev = prev := rfl

theorem mkOutlineDict_Next (item : PDFTocItem) (prev next : Option Nat) :
    (mkOutlineDict item prev next).Next = next := rfl

theorem mkOutlineDict_Count_of_ne (item : PDFTocItem)
    (prev next : Option Nat) (h : item.children ≠ []) :
    (mkOutlineDict item prev next).Count = some (countAll item.children) := by
  cases hc : item.children with
  | nil => exact absurd hc h
  | cons c cs => simp only [mkOutlineDict, hc]

theorem mkOutlineDict_Count_of_nil (item : PDFTocItem)
    (prev next : Option Nat) (h : item.children = []) :
    (mkOutlineDict item prev next).First = none ∧
    (mkOutlineDict item prev next).Last = none ∧
    (mkOutlineDict item prev next).Count = none := by
  simp [mkOutlineDict, h]

/-- For every node of the decorated forest, the final object table holds
the dictionary addObjectsToPDF built for that node (for some Prev/Next
context). -/
theorem toc_lookup_node (doc : PDFDocState) (items : List TOCItem)
    (h : items ≠ []) {p : PDFTocItem}
    (hIn : InForest p
      (addRefs items doc.nextRefCtr (doc.nextRefCtr + 1)).1) :
    ∃ prev next, lookupObj (toc doc items).objects p.ref =
      some (mkOutlineDict p prev next) := by
  obtain ⟨l, hsib, n, hget⟩ := inForest_sib hIn
  have hl := toc_lookup doc items h l hsib n.1 n.2
  rw [hget] at hl
  exact ⟨_, _, hl⟩

/-- Claim C1: for every non-empty TOC tree handed to PostProcess.toc, the
Count value written into the outline root dictionary equals the total
number of TOC nodes in the whole tree, and for every node that has
children the Count value written into that node's dictionary equals the
number of nodes of its subtree excluding the node itself (the node count
of its children forest). -/
theorem toc_count_correct (doc : PDFDocState) (items : List TOCItem)
    (h : items ≠ []) :
    (∃ d, lookupObj (toc doc items).objects doc.nextRefCtr = some d ∧
       d.Count = some (tocSize items)) ∧
    (∀ p, InForest p
        (addRefs items doc.nextRefCtr (doc.nextRefCtr + 1)).1 →
      p.children ≠ [] →
      ∃ d, lookupObj (toc doc items).objects p.ref = some d ∧
        d.Count = some (forestCount p.children)) := by
  have hne : items.isEmpty = false := by
    cases items with
    | nil => exact absurd rfl h
    | cons a b => rfl
  obtain ⟨hsnd, hrefs, hfc⟩ :=
    addRefs_spec items doc.nextRefCtr (doc.nextRefCtr + 1)
  constructor
  · have hroot : lookupObj (toc doc items).objects doc.nextRefCtr =
        some { First := (addRefs items doc.nextRefCtr
                  (doc.nextRefCtr + 1)).1.head?.map PDFTocItem.ref
               Last := (addRefs items doc.nextRefCtr
                  (doc.nextRefCtr + 1)).1.getLast?.map PDFTocItem.ref
               Count := some (countAll (addRefs items doc.nextRefCtr
                  (doc.nextRefCtr + 1)).1) } := by
      simp only [toc, hne, Bool.false_eq_true, if_false, lookupObj]
      rw [List.find?_cons_of_pos _ (by simp)]
      rfl
    refine ⟨_, hroot, ?_⟩
    simp only [countAll_spec, hfc]
  · intro p hIn hch
    obtain ⟨prev, next, hl⟩ := toc_lookup_node doc items h hIn
    refine ⟨_, hl, ?_⟩
    rw [mkOutlineDict_Count_of_ne p prev next hch, countAll_spec]

def wDoc : PDFDocState := ⟨1, [], none⟩

def wItems : List TOCItem :=
  [TOCItem.mk "a" "A" [TOCItem.mk "b" "B" []]]

/-- Witness for C1: a concrete two-node tree on a fresh document. -/
theorem toc_count_correct_witness :
    wItems ≠ [] ∧
    ((∃ d, lookupObj (toc wDoc wItems).objects wDoc.nextRefCtr = some d ∧
       d.Count = some (tocSize wItems)) ∧
    (∀ p, InForest p
        (addRefs wItems wDoc.nextRefCtr (wDoc.nextRefCtr + 1)).1 →
      p.children ≠ [] →
      ∃ d, lookupObj (toc wDoc wItems).objects p.ref = some d ∧
        d.Count = some (forestCount p.children))) :=
  ⟨by simp [wItems], toc_count_correct wDoc wItems (by simp [wItems])⟩

/-- Claim C2: in the outline PostProcess.toc builds, adjacent siblings
are doubly linked through their references, the first sibling of a
sequence carries no Prev key and the last no Next key, a node with
children carries First and Last pointing at the first and last child's
references, and a childless node carries none of First, Last, Count. -/
theorem toc_sibling_links (doc : PDFDocState) (items : List TOCItem)
    (h : items ≠ []) :
    (∀ l, SibList l
        (addRefs items doc.nextRefCtr (doc.nextRefCtr + 1)).1 →
      ∀ i (hi : i + 1 < l.length),
      ∃ d₁ d₂,
        lookupObj (toc doc items).objects
          (l.get ⟨i, Nat.lt_of_succ_lt hi⟩).ref = some d₁ ∧
        lookupObj (toc doc items).objects
          (l.get ⟨i + 1, hi⟩).ref = some d₂ ∧
        d₁.Next = some (l.get ⟨i + 1, hi⟩).ref ∧
        d₂.Prev = some (l.get ⟨i, Nat.lt_of_succ_lt hi⟩).ref) ∧
    (∀ l, SibList l
        (addRefs items doc.nextRefCtr (doc.nextRefCtr + 1)).1 →
      ∀ (hl : l ≠ []),
      ∃ d, lookupObj (toc doc items).objects (l.head hl).ref = some d ∧
        d.Prev = none) ∧
    (∀ l, SibList l
        (addRefs items doc.nextRefCtr (doc.nextRefCtr + 1)).1 →
      ∀ (hl : l ≠ []),
      ∃ d, lookupObj (toc doc items).objects (l.getLast hl).ref =
          some d ∧ d.Next = none) ∧
    (∀ p, InForest p
        (addRefs items doc.nextRefCtr (doc.nextRefCtr + 1)).1 →
      ∀ c cs, p.children = c :: cs →
      ∃ d, lookupObj (toc doc items).objects p.ref = some d ∧
        d.First = some c.ref ∧
        d.Last = some (((c :: cs).getLast (List.cons_ne_nil c cs)).ref)) ∧
    (∀ p, InForest p
        (addRefs items doc.nextRefCtr (doc.nextRefCtr + 1)).1 →
      p.children = [] →
      ∃ d, lookupObj (toc doc items).objects p.ref = some d ∧
        d.First = none ∧ d.Last = none ∧ d.Count = none) := by
  refine ⟨?_, ?_, ?_, ?_, ?_⟩
  · intro l hsib i hi
    have h₁ := toc_lookup doc items h l hsib i (Nat.lt_of_succ_lt hi)
    have h₂ := toc_lookup doc items h l hsib (i + 1) hi
    refine ⟨_, _, h₁, h₂, ?_, ?_⟩
    · rw [mkOutlineDict_Next, List.get?_eq_get hi]
      rfl
    · rw [mkOutlineDict_Prev]
      simp only [prevAt]
      rw [List.get?_eq_get (Nat.lt_of_succ_lt hi)]
      rfl
  · intro l hsib hl
    cases l with
    | nil => exact absurd rfl hl
    | cons a tl =>
      have h₀ := toc_lookup doc items h (a :: tl) hsib 0 (by simp)
      refine ⟨_, h₀, ?_⟩
      simp [mkOutlineDict, prevAt]
  · intro l hsib hl
    have hlen : 0 < l.length := List.length_pos.mpr hl
    have hlast := toc_lookup doc items h l hsib (l.length - 1) (by omega)
    rw [← List.getLast_eq_get l hl] at hlast
    refine ⟨_, hlast, ?_⟩
    have hnone : l.get? (l.length - 1 + 1) = none :=
      List.get?_eq_none.mpr (by omega)
    rw [mkOutlineDict_Next, hnone]
    rfl
  · intro p hIn c cs hc
    obtain ⟨prev, next, hl⟩ := toc_lookup_node doc items h hIn
    refine ⟨_, hl, ?_, ?_⟩
    · simp [mkOutlineDict, hc]
    · simp only [mkOutlineDict, hc]
      rw [List.getLast?_eq_getLast _ (List.cons_ne_nil c cs)]
      rfl
  · intro p hIn hc
    obtain ⟨prev, next, hl⟩ := toc_lookup_node doc items h hIn
    obtain ⟨hF, hL, hC⟩ := mkOutlineDict_Count_of_nil p prev next hc
    exact ⟨_, hl, hF, hL, hC⟩

/-- Witness for C2: the same concrete two-node tree. -/
theorem toc_sibling_links_witness :
    wItems ≠ [] ∧
    ((∀ l, SibList l
        (addRefs wItems wDoc.nextRefCtr (wDoc.nextRefCtr + 1)).1 →
      ∀ i (hi : i + 1 < l.length),
      ∃ d₁ d₂,
        lookupObj (toc wDoc wItems).objects
          (l.get ⟨i, Nat.lt_of_succ_lt hi⟩).ref = some d₁ ∧
        lookupObj (toc wDoc wItems).objects
          (l.get ⟨i + 1, hi⟩).ref = some d₂ ∧
        d₁.Next = some (l.get ⟨i + 1, hi⟩).ref ∧
        d₂.Prev = some (l.get ⟨i, Nat.lt_of_succ_lt hi⟩).ref) ∧
    (∀ l, SibList l
        (addRefs wItems wDoc.nextRefCtr (wDoc.nextRefCtr + 1)).1 →
      ∀ (hl : l ≠ []),
      ∃ d, lookupObj (toc wDoc wItems).objects (l.head hl).ref =
          some d ∧ d.Prev = none) ∧
    (∀ l, SibList l
        (addRefs wItems wDoc.nextRefCtr (wDoc.nextRefCtr + 1)).1 →
      ∀ (hl : l ≠ []),
      ∃ d, lookupObj (toc wDoc wItems).objects (l.getLast hl).ref =
          some d ∧ d.Next = none) ∧
    (∀ p, InForest p
        (addRefs wItems wDoc.nextRefCtr (wDoc.nextRefCtr + 1)).1 →
      ∀ c cs, p.children = c :: cs →
      ∃ d, lookupObj (toc wDoc wItems).objects p.ref = some d ∧
        d.First = some c.ref ∧
        d.Last = some (((c :: cs).getLast (List.cons_ne_nil c cs)).ref)) ∧
    (∀ p, InForest p
        (addRefs wItems wDoc.nextRefCtr (wDoc.nextRefCtr + 1)).1 →
      p.children = [] →
      ∃ d, lookupObj (toc wDoc wItems).objects p.ref = some d ∧
        d.First = none ∧ d.Last = none ∧ d.Count = none)) :=
  ⟨by simp [wItems], toc_sibling_links wDoc wItems (by simp [wItems])⟩

/-- Claim C6: on the empty TOC sequence PostProcess.toc performs no
mutation: no references are allocated, no object is assigned, the
catalog (its Outlines entry included) is exactly the input's, and no
failure occurs. -/
theorem toc_empty_noop (doc : PDFDocState) : toc doc [] = doc := by
  simp [toc]

/-- A value entry of a role qualifier list (only the v field of these
entries is ever read). -/
structure RoleEntry where
  v : String
deriving DecidableEq

/-- The qualifier map attached to a metadata entry; only the role term
is ever consulted by the source. -/
structure Qualifiers where
  role : Option (List RoleEntry) := none
deriving DecidableEq

/-- A metadata value entry: a primary textual value v and an optional
qualifier map r (the shape PostProcess.metadata reads). -/
structure MetaEntry where
  v : String
  r : Option Qualifiers := none
deriving DecidableEq

/-- Models the Meta record from the broker module (not under src): a
mapping from recognized term identifiers to ordered entry sequences.
Only the terms the source consults are represented; an absent key is
none. -/
structure Meta where
  title : Option (List MetaEntry) := none
  creator : Option (List MetaEntry) := none
  description : Option (List MetaEntry) := none
  subject : Option (List MetaEntry) := none
  contributor : Option (List MetaEntry) := none
  language : Option (List MetaEntry) := none
  created : Option (List MetaEntry) := none
  date : Option (List MetaEntry) := none
deriving DecidableEq

/-- Models a JavaScript Date object constructed from a string.  The raw
constructor argument is kept; note that a Date object is truthy whether
or not the string parsed as a valid calendar date. -/
structure JsDate where
  raw : String
deriving DecidableEq

/-- JavaScript truthiness of a Date object: objects are always truthy,
including an Invalid Date. -/
def JsDate.truthy (_ : JsDate) : Bool := true

/-- The PDF info-dictionary fields PostProcess.metadata can set.  A none
field models the setter not having been called for it. -/
structure Info where
  producer : Option String := none
  title : Option String := none
  author : Option String := none
  subject : Option String := none
  keywords : Option (List String) := none
  creator : Option String := none
  language : Option String := none
  creationDate : Option JsDate := none
deriving DecidableEq

/-- The first entry's text for a term lookup: undefined when the term is
absent (optional chaining), a TypeError (left) when the term is present
with an empty sequence — reading .v of entries at index 0, which is
undefined, throws — and the first v otherwise. -/
def firstVOpt : Option (List MetaEntry) → Except Unit (Option String)
| none => .ok none
| some [] => .error ()
| some (e :: _) => .ok (some e.v)

/-- JavaScript truthiness guard on an optional string: a missing value
and the empty string are falsy, everything else passes through. -/
def truthyStr : Option String → Option String
| none => none
| some s => if s = "" then none else some s

/-- The predicate of the contributor find call: item.r, then its role
term, then entry 0's v, compared to the fixed book-producer code; a
TypeError (left) when role is present with an empty sequence. -/
def roleIsBkp (e : MetaEntry) : Except Unit Bool :=
  match e.r with
  | none => .ok false
  | some q =>
    match q.role with
    | none => .ok false
    | some [] => .error ()
    | some (re :: _) => .ok (re.v == "bkp")

/-- Models Array.prototype.find over the contributor entries with the role
predicate; a predicate TypeError propagates. -/
def findBkp : List MetaEntry → Except Unit (Option MetaEntry)
| [] => .ok none
| e :: rest => do
  let m ← roleIsBkp e
  if m then .ok (some e) else findBkp rest

/-- The optional-chained find: undefined when the contributor term is
absent. -/
def findBkpOpt : Option (List MetaEntry) → Except Unit (Option MetaEntry)
| none => .ok none
| some l => findBkp l

/-- The creationDate guard: creation falsy (undefined or empty string)
skips the setter; otherwise a Date object is constructed from the text,
and the object — being an object — passes the truthiness test no matter
what it parsed to. -/
def dateGuard : Option String → Option JsDate
| none => none
| some s =>
  if s = "" then none
  else
    let d : JsDate := ⟨s⟩
    if d.truthy then some d else none

/-- Models PostProcess.metadata: sets Producer unconditionally, then each other
info field only when the corresponding extracted value is truthy.
Fields whose guard fails keep their prior value.  A TypeError from an
entry access propagates as an error. -/
def metadata (tree : Meta) (prior : Info) : Except Unit Info := do
  let info₀ := { prior with producer := some "Vivliostyle" }
  let title? ← firstVOpt tree.title
  let info₁ := match truthyStr title? with
    | some t => { info₀ with title := some t }
    | none => info₀
  let author? := tree.creator.map
    (fun l => String.intercalate "; " (l.map MetaEntry.v))
  let info₂ := match truthyStr author? with
    | some a => { info₁ with author := some a }
    | none => info₁
  let subject? ← firstVOpt tree.description
  let info₃ := match truthyStr subject? with
    | some s => { info₂ with subject := some s }
    | none => info₂
  let keywords? := tree.subject.map (fun l => l.map MetaEntry.v)
  let info₄ := match keywords? with
    | some ks => { info₃ with keywords := some ks }
    | none => info₃
  let found ← findBkpOpt tree.contributor
  let info₅ := match truthyStr (found.map MetaEntry.v) with
    | some c => { info₄ with creator := some c }
    | none => info₄
  let language? ← firstVOpt tree.language
  let info₆ := match truthyStr language? with
    | some lg => { info₅ with language := some lg }
    | none => info₅
  let creation? ← firstVOpt (tree.created <|> tree.date)
  let info₇ := match dateGuard creation? with
    | some d => { info₆ with creationDate := some d }
    | none => info₆
  return info₇

/-- Pure specification of which contributor entry the role predicate
selects: the first whose role qualifier's first value is the fixed
book-producer code. -/
def entryRoleBkp (e : MetaEntry) : Bool :=
  match e.r with
  | none => false
  | some q =>
    match q.role with
    | none => false
    | some [] => false
    | some (re :: _) => re.v == "bkp"

/-- Pure first-match selection over the contributor entries. -/
def firstBkpSpec : List MetaEntry → Option MetaEntry
| [] => none
| e :: rest => if entryRoleBkp e then some e else firstBkpSpec rest

theorem roleIsBkp_ok {e : MetaEntry} {b : Bool} (h : roleIsBkp e = .ok b) :
    b = entryRoleBkp e := by
  cases e with
  | mk v r =>
    cases r with
    | none => simp [roleIsBkp] at h; simp [entryRoleBkp, ← h]
    | some q =>
      cases q with
      | mk role =>
        cases role with
        | none => simp [roleIsBkp] at h; simp [entryRoleBkp, ← h]
        | some rl =>
          cases rl with
          | nil => simp [roleIsBkp] at h
          | cons re rest =>
            simp [roleIsBkp] at h
            simp [entryRoleBkp, ← h]

theorem findBkp_ok : ∀ {l : List MetaEntry} {o : Option MetaEntry},
    findBkp l = .ok o → o = firstBkpSpec l := by
  intro l
  induction l with
  | nil => intro o h; simpa [findBkp, firstBkpSpec] using h.symm
  | cons e rest ih =>
    intro o h
    rw [findBkp] at h
    cases hr : roleIsBkp e with
    | error u => rw [hr] at h; simp [Bind.bind, Except.bind] at h
    | ok b =>
      rw [hr] at h
      simp only [Bind.bind, Except.bind] at h
      have hb := roleIsBkp_ok hr
      cases b with
      | true =>
        simp at h
        simp [firstBkpSpec, ← hb, h.symm]
      | false =>
        simp at h
        simp [firstBkpSpec, ← hb, ih h]

theorem findBkpOpt_ok {o : Option (List MetaEntry)}
    {fo : Option MetaEntry} (h : findBkpOpt o = .ok fo) :
    (o = none ∧ fo = none) ∨
    (∃ l, o = some l ∧ fo = firstBkpSpec l) := by
  cases o with
  | none => simp [findBkpOpt] at h; simp [← h]
  | some l => exact Or.inr ⟨l, rfl, findBkp_ok h⟩

theorem firstVOpt_ok {o : Option (List MetaEntry)} {t : Option String}
    (h : firstVOpt o = .ok t) :
    (o = none ∧ t = none) ∨
    (∃ e l, o = some (e :: l) ∧ t = some e.v) := by
  cases o with
  | none => simp [firstVOpt] at h; simp [← h]
  | some l =>
    cases l with
    | nil => simp [firstVOpt] at h
    | cons e es =>
      simp [firstVOpt] at h
      exact Or.inr ⟨e, es, rfl, h.symm⟩

/-- The pure part of PostProcess.metadata: given the extracted optional
values, the chain of guarded field updates the method performs. -/
def mdApply (prior : Info) (title? author? subject? : Option String)
    (keywords? : Option (List String)) (found : Option MetaEntry)
    (language? creation? : Option String) : Info :=
  let info₀ := { prior with producer := some "Vivliostyle" }
  let info₁ := match truthyStr title? with
    | some t => { info₀ with title := some t }
    | none => info₀
  let info₂ := match truthyStr author? with
    | some a => { info₁ with author := some a }
    | none => info₁
  let info₃ := match truthyStr subject? with
    | some s => { info₂ with subject := some s }
    | none => info₂
  let info₄ := match keywords? with
    | some ks => { info₃ with keywords := some ks }
    | none => info₃
  let info₅ := match truthyStr (found.map MetaEntry.v) with
    | some c => { info₄ with creator := some c }
    | none => info₄
  let info₆ := match truthyStr language? with
    | some lg => { info₅ with language := some lg }
    | none => info₅
  match dateGuard creation? with
  | some d => { info₆ with creationDate := some d }
  | none => info₆

/-- Successful runs of metadata factor through the pure update chain,
with each fallible extraction having succeeded. -/
theorem metadata_ok_shape {m : Meta} {prior info : Info}
    (h : metadata m prior = .ok info) :
    ∃ t? s? fo lg? c?,
      firstVOpt m.title = .ok t? ∧
      firstVOpt m.description = .ok s? ∧
      findBkpOpt m.contributor = .ok fo ∧
      firstVOpt m.language = .ok lg? ∧
      firstVOpt (m.created <|> m.date) = .ok c? ∧
      info = mdApply prior t?
        (m.creator.map (fun l => String.intercalate "; " (l.map MetaEntry.v)))
        s? (m.subject.map (fun l => l.map MetaEntry.v)) fo lg? c? := by
  rw [metadata] at h
  cases h1 : firstVOpt m.title with
  | error u => rw [h1] at h; simp [Bind.bind, Except.bind] at h
  | ok t? =>
    rw [h1] at h
    cases h2 : firstVOpt m.description with
    | error u => rw [h2] at h; simp [Bind.bind, Except.bind] at h
    | ok s? =>
      rw [h2] at h
      cases h3 : findBkpOpt m.contributor with
      | error u => rw [h3] at h; simp [Bind.bind, Except.bind] at h
      | ok fo =>
        rw [h3] at h
        cases h4 : firstVOpt m.language with
        | error u => rw [h4] at h; simp [Bind.bind, Except.bind] at h
        | ok lg? =>
          rw [h4] at h
          cases h5 : firstVOpt (m.created <|> m.date) with
          | error u => rw [h5] at h; simp [Bind.bind, Except.bind] at h
          | ok c? =>
            rw [h5] at h
            simp only [Bind.bind, Except.bind, Except.ok.injEq, pure,
              Except.pure] at h
            exact ⟨t?, s?, fo, lg?, c?, rfl, rfl, rfl, rfl, rfl,
              by rw [← h]; rfl⟩

theorem truthyStr_isSome (o : Option String) :
    (truthyStr o).isSome = true ↔ ∃ s, o = some s ∧ s ≠ "" := by
  cases o with
  | none => simp [truthyStr]
  | some s => by_cases h : s = "" <;> simp [truthyStr, h]

theorem dateGuard_isSome (o : Option String) :
    (dateGuard o).isSome = true ↔ ∃ s, o = some s ∧ s ≠ "" := by
  cases o with
  | none => simp [dateGuard]
  | some s => by_cases h : s = "" <;> simp [dateGuard, h, JsDate.truthy]

theorem mdApply_fields (prior : Info) (t a s : Option String)
    (k : Option (List String)) (f : Option MetaEntry)
    (lg c : Option String) :
    (mdApply prior t a s k f lg c).producer = some "Vivliostyle" ∧
    (mdApply prior t a s k f lg c).title = (truthyStr t).or prior.title ∧
    (mdApply prior t a s k f lg c).author = (truthyStr a).or prior.author ∧
    (mdApply prior t a s k f lg c).subject =
      (truthyStr s).or prior.subject ∧
    (mdApply prior t a s k f lg c).keywords = k.or prior.keywords ∧
    (mdApply prior t a s k f lg c).creator =
      (truthyStr (f.map MetaEntry.v)).or prior.creator ∧
    (mdApply prior t a s k f lg c).language =
      (truthyStr lg).or prior.language ∧
    (mdApply prior t a s k f lg c).creationDate =
      (dateGuard c).or prior.creationDate := by
  unfold mdApply
  cases truthyStr t <;> cases truthyStr a <;> cases truthyStr s <;>
    cases k <;> cases truthyStr (f.map MetaEntry.v) <;>
    cases truthyStr lg <;> cases dateGuard c <;>
    simp [Option.or]

/-- Claim C10: PostProcess.metadata sets CreationDate whenever a created
or date term is present with a non-empty first value, no matter whether
that text parses as a valid calendar date: the guard tests truthiness of
the constructed Date object, and an object is truthy even when it is an
Invalid Date, so the raw text is embedded rather than the field being
omitted or the operation failing. -/
theorem metadata_creation_unvalidated (m : Meta) (prior info : Info)
    (h : metadata m prior = .ok info) (e : MetaEntry)
    (l : List MetaEntry) (hterm : (m.created <|> m.date) = some (e :: l))
    (hv : e.v ≠ "") :
    info.creationDate = some ⟨e.v⟩ ∧ JsDate.truthy ⟨e.v⟩ = true := by
  obtain ⟨t?, s?, fo, lg?, c?, h1, h2, h3, h4, h5, heq⟩ :=
    metadata_ok_shape h
  rw [hterm] at h5
  have hc : c? = some e.v := by
    simpa [firstVOpt] using h5.symm
  subst heq
  refine ⟨?_, rfl⟩
  rw [(mdApply_fields prior t? _ s? _ fo lg? c?).2.2.2.2.2.2.2, hc]
  simp [dateGuard, hv, JsDate.truthy, Option.or]

/-- Witness for C10: the unparsable text not-a-date is embedded. -/
theorem metadata_creation_unvalidated_witness :
    metadata { created := some [{ v := "not-a-date" }] } {} =
      .ok { producer := some "Vivliostyle",
            creationDate := some ⟨"not-a-date"⟩ } ∧
    ({ producer := some "Vivliostyle",
       creationDate := some (JsDate.mk "not-a-date") } :
        Info).creationDate = some ⟨"not-a-date"⟩ ∧
    JsDate.truthy ⟨"not-a-date"⟩ = true :=
  ⟨rfl,
   metadata_creation_unvalidated { created := some [{ v := "not-a-date" }] }
     {} _ rfl { v := "not-a-date" } [] rfl (by decide)⟩

/-- Claim C3 as stated fails on the code: a term can be present while
its field is left unset, because each guard tests JS truthiness of the
extracted text and the empty string is falsy; here the title term is
present but Title is not set. -/
theorem metadata_presence_iff_cex :
    ¬ (∀ (m : Meta) (info : Info), metadata m {} = .ok info →
        (info.title.isSome ↔ m.title.isSome)) := by
  intro hall
  have h := hall { title := some [{ v := "" }] }
    { producer := some "Vivliostyle" } rfl
  simp at h

/-- Claim C3 (amended): Producer is always set to the fixed tool string,
overwriting any prior value; every other field is set iff its source
term yields a JS-truthy extraction — a non-empty first value for Title,
Subject, Language and CreationDate (created falling back to date), a
non-empty joined string for Author, a first book-producer contributor
with non-empty text for Creator — except Keywords, which is set iff the
subject term is present at all (the mapped array is truthy even when
empty). -/
theorem metadata_field_rules (m : Meta) :
    (∀ prior info, metadata m prior = .ok info →
      info.producer = some "Vivliostyle") ∧
    (∀ info, metadata m {} = .ok info →
      (info.title.isSome ↔ ∃ e l, m.title = some (e :: l) ∧ e.v ≠ "") ∧
      (info.author.isSome ↔ ∃ l, m.creator = some l ∧
        String.intercalate "; " (l.map MetaEntry.v) ≠ "") ∧
      (info.subject.isSome ↔
        ∃ e l, m.description = some (e :: l) ∧ e.v ≠ "") ∧
      (info.keywords.isSome ↔ m.subject.isSome) ∧
      (info.creator.isSome ↔ ∃ l e, m.contributor = some l ∧
        firstBkpSpec l = some e ∧ e.v ≠ "") ∧
      (info.language.isSome ↔
        ∃ e l, m.language = some (e :: l) ∧ e.v ≠ "") ∧
      (info.creationDate.isSome ↔
        ∃ e l, (m.created <|> m.date) = some (e :: l) ∧ e.v ≠ "")) := by
  constructor
  · intro prior info h
    obtain ⟨t?, s?, fo, lg?, c?, h1, h2, h3, h4, h5, heq⟩ :=
      metadata_ok_shape h
    subst heq
    exact (mdApply_fields prior t? _ s? _ fo lg? c?).1
  · intro info h
    obtain ⟨t?, s?, fo, lg?, c?, h1, h2, h3, h4, h5, heq⟩ :=
      metadata_ok_shape h
    subst heq
    obtain ⟨hp, ht, ha, hs, hk, hc, hl, hd⟩ :=
      mdApply_fields {} t? _ s? _ fo lg? c?
    refine ⟨?_, ?_, ?_, ?_, ?_, ?_, ?_⟩
    · rw [ht]
      simp only [Info.title, Option.or_none, truthyStr_isSome]
      rcases firstVOpt_ok h1 with ⟨hm, htt⟩ | ⟨e, l2, hm, htt⟩ <;>
        subst htt <;> simp [hm]
    · rw [ha]
      simp only [Info.author, Option.or_none, truthyStr_isSome]
      simp [Option.map_eq_some']
    · rw [hs]
      simp only [Info.subject, Option.or_none, truthyStr_isSome]
      rcases firstVOpt_ok h2 with ⟨hm, htt⟩ | ⟨e, l2, hm, htt⟩ <;>
        subst htt <;> simp [hm]
    · rw [hk]
      simp only [Info.keywords, Option.or_none]
      simp
    · rw [hc]
      simp only [Info.creator, Option.or_none, truthyStr_isSome]
      rcases findBkpOpt_ok h3 with ⟨hm, hfo⟩ | ⟨l2, hm, hfo⟩ <;>
        subst hfo <;> simp [hm, Option.map_eq_some']
    · rw [hl]
      simp only [Info.language, Option.or_none, truthyStr_isSome]
      rcases firstVOpt_ok h4 with ⟨hm, htt⟩ | ⟨e, l2, hm, htt⟩ <;>
        subst htt <;> simp [hm]
    · rw [hd]
      simp only [Info.creationDate, Option.or_none, dateGuard_isSome]
      rcases firstVOpt_ok h5 with ⟨hm, htt⟩ | ⟨e, l2, hm, htt⟩ <;>
        subst htt <;> simp [hm]

def wMeta : Meta :=
  { title := some [{ v := "T" }]
    creator := some [{ v := "X" }, { v := "Y" }]
    subject := some []
    contributor := some [{ v := "A", r := some { role := some [⟨"bkp"⟩] } },
                         { v := "B" }]
    language := some [{ v := "en" }]
    created := some [{ v := "2020-01-01" }] }

def wInfo : Info :=
  { producer := some "Vivliostyle"
    title := some "T"
    author := some "X; Y"
    keywords := some []
    creator := some "A"
    language := some "en"
    creationDate := some ⟨"2020-01-01"⟩ }

def wPrior : Info := { producer := some "Old", subject := some "KeepMe" }

def wInfo2 : Info := { wInfo with subject := some "KeepMe" }

/-- Witness for C3 at a concrete record exercising every field, with a
non-trivial prior Producer being overwritten. -/
theorem metadata_field_rules_witness :
    metadata wMeta {} = .ok wInfo ∧
    metadata wMeta wPrior = .ok wInfo2 ∧
    wInfo2.producer = some "Vivliostyle" ∧
    ((wInfo.title.isSome ↔
        ∃ e l, wMeta.title = some (e :: l) ∧ e.v ≠ "") ∧
      (wInfo.author.isSome ↔ ∃ l, wMeta.creator = some l ∧
        String.intercalate "; " (l.map MetaEntry.v) ≠ "") ∧
      (wInfo.subject.isSome ↔
        ∃ e l, wMeta.description = some (e :: l) ∧ e.v ≠ "") ∧
      (wInfo.keywords.isSome ↔ wMeta.subject.isSome) ∧
      (wInfo.creator.isSome ↔ ∃ l e, wMeta.contributor = some l ∧
        firstBkpSpec l = some e ∧ e.v ≠ "") ∧
      (wInfo.language.isSome ↔
        ∃ e l, wMeta.language = some (e :: l) ∧ e.v ≠ "") ∧
      (wInfo.creationDate.isSome ↔
        ∃ e l, (wMeta.created <|> wMeta.date) = some (e :: l) ∧
          e.v ≠ "")) :=
  ⟨rfl, rfl, (metadata_field_rules wMeta).1 wPrior wInfo2 rfl,
   (metadata_field_rules wMeta).2 wInfo rfl⟩

/-- Claim C7 as stated fails on the code: a matching book-producer
contributor whose text is the empty string exists, yet Creator is left
absent, because the guard tests JS truthiness of the text. -/
theorem metadata_creator_cex :
    ¬ (∀ (m : Meta) (info : Info), metadata m {} = .ok info →
        ∀ l e, m.contributor = some l → firstBkpSpec l = some e →
          info.creator = some e.v) := by
  intro hall
  have h := hall
    { contributor :=
        some [{ v := "", r := some { role := some [⟨"bkp"⟩] } }] }
    { producer := some "Vivliostyle" } rfl
    [{ v := "", r := some { role := some [⟨"bkp"⟩] } }]
    { v := "", r := some { role := some [⟨"bkp"⟩] } } rfl rfl
  simp at h

/-- Claim C7 (amended): Creator is set to the text of the first
contributor entry whose role qualifier is the book-producer code when
that text is non-empty; it is absent when no entry matches — even if
other contributors exist — and likewise when the matched text is empty. -/
theorem metadata_creator_rule (m : Meta) (info : Info)
    (h : metadata m {} = .ok info) :
    (∀ l e, m.contributor = some l → firstBkpSpec l = some e →
      e.v ≠ "" → info.creator = some e.v) ∧
    (∀ l, m.contributor = some l → firstBkpSpec l = none →
      info.creator = none) ∧
    (m.contributor = none → info.creator = none) ∧
    (∀ l e, m.contributor = some l → firstBkpSpec l = some e →
      e.v = "" → info.creator = none) := by
  obtain ⟨t?, s?, fo, lg?, c?, h1, h2, h3, h4, h5, heq⟩ :=
    metadata_ok_shape h
  subst heq
  have hc := (mdApply_fields {} t? (m.creator.map (fun l => String.intercalate "; " (l.map MetaEntry.v))) s? (m.subject.map (fun l => l.map MetaEntry.v)) fo lg? c?).2.2.2.2.2.1
  rcases findBkpOpt_ok h3 with ⟨hm, hfo⟩ | ⟨l2, hm, hfo⟩ <;> subst hfo
  · refine ⟨?_, ?_, ?_, ?_⟩
    · intro l e hl
      rw [hm] at hl
      exact absurd hl (by simp)
    · intro l hl
      rw [hm] at hl
      exact absurd hl (by simp)
    · intro _
      rw [hc]
      rfl
    · intro l e hl
      rw [hm] at hl
      exact absurd hl (by simp)
  · refine ⟨?_, ?_, ?_, ?_⟩
    · intro l e hl hfb hne
      rw [hm] at hl
      obtain rfl : l2 = l := by simpa using hl
      rw [hc, hfb]
      simp [truthyStr, hne, Option.or]
    · intro l hl hfb
      rw [hm] at hl
      obtain rfl : l2 = l := by simpa using hl
      rw [hc, hfb]
      rfl
    · intro hnone
      rw [hm] at hnone
      exact absurd hnone (by simp)
    · intro l e hl hfb hemp
      rw [hm] at hl
      obtain rfl : l2 = l := by simpa using hl
      rw [hc, hfb]
      simp [truthyStr, hemp, Option.or]

def wMeta7 : Meta :=
  { contributor := some [{ v := "A", r := some { role := some [⟨"bkp"⟩] } },
                         { v := "B" }] }

/-- Witness for C7 at the spec's own example: contributors A (with the
book-producer role) and B resolve Creator to A. -/
theorem metadata_creator_rule_witness :
    metadata wMeta7 {} =
      .ok { producer := some "Vivliostyle", creator := some "A" } ∧
    ({ producer := some "Vivliostyle", creator := some "A" } :
        Info).creator = some "A" :=
  ⟨rfl,
   (metadata_creator_rule wMeta7 _ rfl).1 _
     { v := "A", r := some { role := some [⟨"bkp"⟩] } } rfl rfl
     (by decide)⟩

/-- Models Node's path.join for the uses in this file (tmpdir plus file
name, content root plus URI path): the two segments joined with a
separator. -/
def pathJoin (a b : String) : String := a ++ "/" ++ b

/-- Models the CoverItem shape from the broker module (not under src):
a source URI and a media type. -/
structure CoverItem where
  src : String
  mediaType : String
deriving DecidableEq

/-- Floor of the base-2 logarithm of a positive natural number; the
first argument is fuel, for which the number itself suffices because the
argument halves at every step. -/
def natLog2 : Nat → Nat → Nat
| 0, _ => 0
| f + 1, n => if n ≤ 1 then 0 else natLog2 f (n / 2) + 1

/-- Floor of the base-2 logarithm of a positive rational (the exponent
of its binade): the difference of the numerator's and denominator's
integer logarithms, off by at most one, then adjusted against the
binade bounds. -/
def qlog2 (a : Rat) : Int :=
  let e₀ : Int := (natLog2 a.num.natAbs a.num.natAbs : Int) -
    (natLog2 a.den a.den : Int)
  if a < 2 ^ e₀ then e₀ - 1
  else if 2 ^ (e₀ + 1) ≤ a then e₀ + 1
  else e₀

/-- Round a rational to the nearest integer, ties to the even
neighbour. -/
def roundHalfEven (m : Rat) : Int :=
  let f := ⌊m⌋
  let r := m - (f : Rat)
  if r < 1 / 2 then f
  else if 1 / 2 < r then f + 1
  else if f % 2 = 0 then f else f + 1

/-- Models IEEE-754 binary64 rounding of an exact rational operation
result — round to nearest, ties to even, 53 significant bits — as the
JavaScript number arithmetic of the source applies after every
operation: the argument is scaled into the 53-bit binade, rounded to an
integer significand, and scaled back.  The exponent is unbounded here:
overflow to Infinity and the reduced precision of subnormals
(magnitudes below 2 to the -1022) are outside the model, which agrees
with binary64 throughout the page-geometry range. -/
def roundB64 (q : Rat) : Rat :=
  if q = 0 then 0
  else
    let a := |q|
    let e : Int := qlog2 a - 52
    let n : Int := roundHalfEven (a / 2 ^ e)
    (if q < 0 then -1 else 1) * (n : Rat) * 2 ^ e

/-- A decoded raster image: intrinsic width and height.  Dimensions are
JavaScript numbers (binary64 values), represented exactly as
rationals. -/
structure Image where
  width : Rat
  height : Rat
deriving DecidableEq

/-- Models pdf-lib image.scale under JavaScript double arithmetic: both
dimensions multiplied by the factor, each product rounded to
binary64. -/
def Image.scale (img : Image) (factor : Rat) : Image :=
  { width := roundB64 (img.width * factor)
    height := roundB64 (img.height * factor) }

/-- The slice of PDFDocument state that PostProcess.cover touches: the
page list, each page as width times height.  insertPage(0, dims)
prepends. -/
structure PageDoc where
  pages : List (Rat × Rat)
deriving DecidableEq

/-- The media-type dispatch of PostProcess.cover: read and decode the
file for the two supported types, propagating a read failure; any other
media type falls to the default branch, which returns before any file
system access.  The returned list records which paths were read. -/
def decodeCover (mediaType imagePath : String)
    (readFile : String → Except Unit (List Nat))
    (embedPng embedJpg : List Nat → Image) :
    Except Unit (Option (Image × List String)) :=
  if mediaType = "image/png" then
    match readFile imagePath with
    | .error u => .error u
    | .ok bytes => .ok (some (embedPng bytes, [imagePath]))
  else if mediaType = "image/jpeg" then
    match readFile imagePath with
    | .error u => .error u
    | .ok bytes => .ok (some (embedJpg bytes, [imagePath]))
  else .ok none

/-- Models PostProcess.cover: nothing for an absent cover; resolve the src URI
to a path component (url.parse), silently skipping when there is none;
dispatch on the media type, reading and decoding the file only for the
two supported types; then read the width of the existing first page
(getPage(0) throws on an empty document), scale the image by the
binary64 quotient of that width by the image's width, and insert the
scaled page at index 0.  External
collaborators (URI parsing, file reads, image decoding) are explicit
function arguments; the returned path list records the file reads
performed. -/
def cover (doc : PageDoc) (c : Option CoverItem) (root : String)
    (parsePathname : String → Option String)
    (readFile : String → Except Unit (List Nat))
    (embedPng embedJpg : List Nat → Image) :
    Except Unit (PageDoc × List String) :=
  match c with
  | none => .ok (doc, [])
  | some cov =>
    match parsePathname cov.src with
    | none => .ok (doc, [])
    | some pathName =>
      let imagePath := pathJoin root pathName
      match decodeCover cov.mediaType imagePath readFile
          embedPng embedJpg with
      | .error u => .error u
      | .ok none => .ok (doc, [])
      | .ok (some (image, reads)) =>
        match doc.pages with
        | [] => .error ()
        | page0 :: restPages =>
          let targetWidth := page0.1
          let imageSize := image.scale (roundB64 (targetWidth / image.width))
          .ok ({ pages := (imageSize.width, imageSize.height) ::
                  (page0 :: restPages) }, reads)

/-- Models PostProcess.save: serialized bytes are written to the output path
directly unless pressReady is set, in which case they go to a
uuid-named file under the temp directory and the external press-ready
build is invoked with that file as input and the output path as
output.  The result records the file writes and the external
invocations (input, output). -/
def save (docBytes : List Nat) (output : String) (pressReady : Bool)
    (tmpdir u : String) : List (String × List Nat) × List (String × String) :=
  let input := if pressReady then
      pathJoin tmpdir ("vivliostyle-cli-" ++ u ++ ".pdf")
    else output
  ([(input, docBytes)],
   if pressReady then [(input, output)] else [])

attribute [local semireducible] Rat.mul Rat.inv Rat.add Rat.sub

instance {ε α : Type} [DecidableEq ε] [DecidableEq α] :
    DecidableEq (Except ε α) := fun a b =>
  match a, b with
  | .ok x, .ok y => decidable_of_iff (x = y) (by simp)
  | .error x, .error y => decidable_of_iff (x = y) (by simp)
  | .ok _, .error _ => .isFalse (by simp)
  | .error _, .ok _ => .isFalse (by simp)

set_option maxRecDepth 20000 in
/-- Claim C4 as stated fails on the code: the program computes the
inserted width as w times the binary64 quotient targetWidth / w, each
operation rounded to binary64, and the roundings do not cancel in
general.  With an existing first page of width 1 and an image of
intrinsic size 49 by 49 the inserted page's width (and height) is
9007199254740991/9007199254740992 — one unit in the last place below 1 —
not exactly the first page's width 1. -/
theorem cover_scaling_cex :
    cover { pages := [((1 : Rat), 1)] }
      (some { src := "c.png", mediaType := "image/png" }) "r"
      (fun _ => some "c.png") (fun _ => .ok [])
      (fun _ => { width := 49, height := 49 })
      (fun _ => { width := 0, height := 0 }) =
      .ok ({ pages :=
          [(((9007199254740991 : Rat) / 9007199254740992),
            ((9007199254740991 : Rat) / 9007199254740992)),
           ((1 : Rat), 1)] },
        [pathJoin "r" "c.png"]) ∧
    ((9007199254740991 : Rat) / 9007199254740992) ≠ 1 :=
  ⟨by decide, by norm_num⟩

/-- Claim C4 (amended): for a supported cover on a document whose first
page has width targetWidth, with a decoded image of intrinsic size
(w, h), w nonzero, the inserted page is the image scaled by the
binary64 quotient targetWidth / w, each dimension rounded to binary64 —
so its width equals targetWidth exactly only when the roundings cancel,
as they do in the spec's instance of first-page width 600 and image
1200 by 800, which yields exactly 600 by 400 (checked in the witness) —
and the new page is inserted at index 0 while every previously existing
page's index increases by one. -/
theorem cover_scaling_double (doc : PageDoc) (cov : CoverItem)
    (root : String) (pp : String → Option String)
    (rf : String → Except Unit (List Nat)) (ep ej : List Nat → Image)
    (page0 : Rat × Rat) (rest : List (Rat × Rat)) (pathName : String)
    (bytes : List Nat) (img : Image)
    (hpages : doc.pages = page0 :: rest)
    (hpath : pp cov.src = some pathName)
    (hread : rf (pathJoin root pathName) = .ok bytes)
    (hdec : (cov.mediaType = "image/png" ∧ ep bytes = img) ∨
            (cov.mediaType = "image/jpeg" ∧ ej bytes = img))
    (_hw : img.width ≠ 0) :
    cover doc (some cov) root pp rf ep ej =
      .ok ({ pages :=
          (roundB64 (img.width * roundB64 (page0.1 / img.width)),
           roundB64 (img.height * roundB64 (page0.1 / img.width))) ::
          (page0 :: rest) }, [pathJoin root pathName]) := by
  rcases hdec with ⟨hmt, hemb⟩ | ⟨hmt, hemb⟩ <;>
    simp [cover, hpath, decodeCover, hmt, hread, hemb, hpages,
      Image.scale]

set_option maxRecDepth 20000 in
/-- Witness for C4 at the spec's example: first page width 600, cover
image 1200 by 800; here every rounding is exact, the inserted page is
exactly 600 by 400, and the old first page becomes page 1. -/
theorem cover_scaling_witness :
    cover { pages := [((600 : Rat), (900 : Rat))] }
      (some { src := "cover.png", mediaType := "image/png" }) "root"
      (fun _ => some "cover.png") (fun _ => .ok [])
      (fun _ => { width := 1200, height := 800 })
      (fun _ => { width := 0, height := 0 }) =
      .ok ({ pages :=
          ((roundB64 ((1200 : Rat) * roundB64 ((600 : Rat) / 1200))),
           (roundB64 ((800 : Rat) * roundB64 ((600 : Rat) / 1200)))) ::
          [((600 : Rat), (900 : Rat))] },
        [pathJoin "root" "cover.png"]) ∧
    roundB64 ((1200 : Rat) * roundB64 ((600 : Rat) / 1200)) = 600 ∧
    roundB64 ((800 : Rat) * roundB64 ((600 : Rat) / 1200)) = 400 :=
  ⟨cover_scaling_double { pages := [((600 : Rat), (900 : Rat))] }
      { src := "cover.png", mediaType := "image/png" } "root"
      (fun _ => some "cover.png") (fun _ => .ok [])
      (fun _ => { width := 1200, height := 800 })
      (fun _ => { width := 0, height := 0 })
      ((600 : Rat), (900 : Rat)) [] "cover.png" []
      { width := 1200, height := 800 }
      rfl rfl rfl (Or.inl ⟨rfl, rfl⟩) (by norm_num),
   by decide, by decide⟩

/-- Claim C8: a cover whose media type is neither image/png nor
image/jpeg makes PostProcess.cover a silent no-op: no error is raised
and the returned document — page count and page 0 included — is exactly
the input. -/
theorem cover_unsupported_noop (doc : PageDoc) (src mt root : String)
    (pp : String → Option String)
    (rf : String → Except Unit (List Nat)) (ep ej : List Nat → Image)
    (h1 : mt ≠ "image/png") (h2 : mt ≠ "image/jpeg") :
    cover doc (some { src := src, mediaType := mt }) root pp rf ep ej =
      .ok (doc, []) := by
  cases hps : pp src with
  | none => simp [cover, hps]
  | some p => simp [cover, hps, decodeCover, h1, h2]

/-- Witness for C8 with the gif media type on a one-page document. -/
theorem cover_unsupported_noop_witness :
    cover { pages := [((600 : Rat), (900 : Rat))] }
      (some { src := "cover.gif", mediaType := "image/gif" }) "root"
      (fun _ => some "cover.gif") (fun _ => .ok [])
      (fun _ => { width := 1, height := 1 })
      (fun _ => { width := 1, height := 1 }) =
      .ok ({ pages := [((600 : Rat), (900 : Rat))] }, []) :=
  cover_unsupported_noop { pages := [((600 : Rat), (900 : Rat))] }
    "cover.gif" "image/gif" "root" (fun _ => some "cover.gif")
    (fun _ => .ok []) (fun _ => { width := 1, height := 1 })
    (fun _ => { width := 1, height := 1 })
    (by decide) (by decide)

/-- Claim C9: PostProcess.cover dispatches on the media type (and on the
URI path component) before any file read, so with an unsupported media
type or a src with no path component the file system is never touched —
the read trace is empty and the result is a success for every reader,
including one that always fails, so AssetReadError cannot arise in those
cases. -/
theorem cover_no_read_on_skip (doc : PageDoc) (cov : CoverItem)
    (root : String) (pp : String → Option String)
    (rf : String → Except Unit (List Nat)) (ep ej : List Nat → Image)
    (h : pp cov.src = none ∨
      (cov.mediaType ≠ "image/png" ∧ cov.mediaType ≠ "image/jpeg")) :
    cover doc (some cov) root pp rf ep ej = .ok (doc, []) := by
  rcases h with hp | ⟨h1, h2⟩
  · simp [cover, hp]
  · cases hps : pp cov.src with
    | none => simp [cover, hps]
    | some p => simp [cover, hps, decodeCover, h1, h2]

/-- Witness for C9: an unsupported media type with a reader that fails
on every path still succeeds without reading anything. -/
theorem cover_no_read_on_skip_witness :
    cover { pages := [((600 : Rat), (900 : Rat))] }
      (some { src := "cover.gif", mediaType := "image/bmp" }) "root"
      (fun _ => some "cover.gif") (fun _ => .error ())
      (fun _ => { width := 1, height := 1 })
      (fun _ => { width := 1, height := 1 }) =
      .ok ({ pages := [((600 : Rat), (900 : Rat))] }, []) :=
  cover_no_read_on_skip { pages := [((600 : Rat), (900 : Rat))] }
    { src := "cover.gif", mediaType := "image/bmp" } "root"
    (fun _ => some "cover.gif") (fun _ => .error ())
    (fun _ => { width := 1, height := 1 })
    (fun _ => { width := 1, height := 1 })
    (Or.inr ⟨by decide, by decide⟩)

/-- Claim C5: with pressReady false, save performs exactly one file
write, at outputPath, and never invokes the external transform; with
pressReady true the bytes are written to the uuid-named temporary path —
distinct from outputPath whenever the fresh name differs from it — and
the external print-readiness transform is invoked with that temporary
path as input and outputPath as output. -/
theorem save_spec (bytes : List Nat) (output tmpdir u : String) :
    (save bytes output false tmpdir u).1 = [(output, bytes)] ∧
    (save bytes output false tmpdir u).2 = [] ∧
    (pathJoin tmpdir ("vivliostyle-cli-" ++ u ++ ".pdf") ≠ output →
      (save bytes output true tmpdir u).1 =
        [(pathJoin tmpdir ("vivliostyle-cli-" ++ u ++ ".pdf"), bytes)] ∧
      pathJoin tmpdir ("vivliostyle-cli-" ++ u ++ ".pdf") ≠ output ∧
      (save bytes output true tmpdir u).2 =
        [(pathJoin tmpdir ("vivliostyle-cli-" ++ u ++ ".pdf"), output)]) := by
  refine ⟨by simp [save], by simp [save], fun hne => ⟨by simp [save], hne, by simp [save]⟩⟩

/-- Witness for C5 with a concrete uuid, temp directory and output
path. -/
theorem save_spec_witness :
    pathJoin "/tmp" ("vivliostyle-cli-" ++ "u123" ++ ".pdf") ≠
      "out.pdf" ∧
    ((save [7] "out.pdf" false "/tmp" "u123").1 = [("out.pdf", [7])] ∧
     (save [7] "out.pdf" false "/tmp" "u123").2 = [] ∧
     (pathJoin "/tmp" ("vivliostyle-cli-" ++ "u123" ++ ".pdf") ≠
        "out.pdf" →
      (save [7] "out.pdf" true "/tmp" "u123").1 =
        [(pathJoin "/tmp" ("vivliostyle-cli-" ++ "u123" ++ ".pdf"), [7])] ∧
      pathJoin "/tmp" ("vivliostyle-cli-" ++ "u123" ++ ".pdf") ≠
        "out.pdf" ∧
      (save [7] "out.pdf" true "/tmp" "u123").2 =
        [(pathJoin "/tmp" ("vivliostyle-cli-" ++ "u123" ++ ".pdf"),
          "out.pdf")])) :=
  ⟨by decide, save_spec [7] "out.pdf" "/tmp" "u123"⟩

end Vivliostyle
